import Mathlib

/-!
Verification development for the statement-ingestion and
transaction-reconciliation core of the `tracker` repository.

The TypeScript sources are shallowly embedded: JavaScript strings become
`String` manipulated through executable character-list helpers, JavaScript
numbers become `ℚ` (the amounts in scope are decimal currency values), and
nullable/undefined values become `Option`.  Two external collaborators are
kept abstract as function parameters: `sha : String → String` stands for the
runtime SHA-256 hex digest used by `generateTransactionHash`, and
`nts : ℚ → String` stands for the JavaScript number-to-string rendering used
when the amount is spliced into the hash input.  `getTime : String → Int`
stands for `new Date(s).getTime()` in the display sorts.
-/

namespace Tracker

/-! ### Character-level helpers mirroring the JavaScript string primitives -/

/-- Whitespace class used by `trim`, `\s` and friends (ASCII portion). -/
def jsIsSpace (c : Char) : Bool :=
  c == ' ' || c == '\t' || c == '\n' || c == '\r' || c == '\x0b' || c == '\x0c'

/-- Character-list form of `String.prototype.trim`. -/
def trimChars (cs : List Char) : List Char :=
  ((cs.dropWhile jsIsSpace).reverse.dropWhile jsIsSpace).reverse

/-- JavaScript `s.trim()`. -/
def jsTrim (s : String) : String :=
  String.mk (trimChars s.data)

/-- JavaScript `s.toLowerCase()` (ASCII letters; the inputs in scope are ASCII). -/
def jsToLower (s : String) : String :=
  String.mk (s.data.map Char.toLower)

/-- Does `needle` occur at the head of `hay`? -/
def startsWithChars : List Char → List Char → Bool
  | [], _ => true
  | _ :: _, [] => false
  | a :: as, b :: bs => a == b && startsWithChars as bs

/-- Does `needle` occur anywhere inside `hay`? -/
def hasSubstrChars (needle : List Char) : List Char → Bool
  | [] => startsWithChars needle []
  | c :: cs => startsWithChars needle (c :: cs) || hasSubstrChars needle cs

/-- JavaScript `hay.includes(needle)`. -/
def jsIncludes (hay needle : String) : Bool :=
  hasSubstrChars needle.data hay.data

/-- Character-list splitter underlying `String.prototype.split(sep)`. -/
def splitCharAux (sep : Char) : List Char → List Char → List (List Char)
  | acc, [] => [acc.reverse]
  | acc, c :: cs =>
    if c == sep then acc.reverse :: splitCharAux sep [] cs
    else splitCharAux sep (c :: acc) cs

/-- JavaScript `s.split(sep)` for a single-character separator. -/
def jsSplit (s : String) (sep : Char) : List String :=
  (splitCharAux sep [] s.data).map String.mk

/-- JavaScript `arr.join(sep)` for a single-character separator. -/
def jsJoin (parts : List String) (sep : Char) : String :=
  String.mk (match parts.map String.data with
    | [] => []
    | p :: ps => ps.foldl (fun acc q => acc ++ sep :: q) p)

/-- JavaScript `s.padStart(2, "0")`. -/
def padStart2 (s : String) : String :=
  if s.length ≥ 2 then s
  else if s.length = 1 then "0" ++ s
  else "00" ++ s

/-- Numeric value of a digit list, as used by `parseInt(str, 10)` on the
all-digit groups produced by the date patterns. -/
def natOfDigits (ds : List Char) : Nat :=
  ds.foldl (fun acc c => 10 * acc + (c.toNat - '0'.toNat)) 0

/-! ### Date pattern matching

`String.prototype.match` against the three patterns of `normalizeDate`
(`src/unnamed/part_000`).  Each pattern is three digit groups separated by
a dash or a slash.  A group is described by its candidate lengths in the greedy
backtracking order of the JavaScript engine (`[2, 1]` for `\d{1,2}`,
`[4]` for `\d{4}`, `[2]` for `\d{2}`, `[4, 3, 2]` for `\d{2,4}`). -/

/-- Take exactly `n` digit characters, returning them and the remainder. -/
def takeDigits : Nat → List Char → Option (List Char × List Char)
  | 0, cs => some ([], cs)
  | _ + 1, [] => none
  | n + 1, c :: cs =>
    if c.isDigit then
      match takeDigits n cs with
      | some (d, r) => some (c :: d, r)
      | none => none
    else none

/-- Separator class (dash or slash) of the date patterns. -/
def isDateSep (c : Char) : Bool :=
  c == '-' || c == '/'

/-- Try the candidate digit-group lengths in order, resuming with `k`;
this reproduces the greedy-with-backtracking behaviour of `\d{m,n}`. -/
def tryLens (lens : List Nat) (cs : List Char)
    (k : List Char → List Char → Option α) : Option α :=
  match lens with
  | [] => none
  | n :: rest =>
    match takeDigits n cs with
    | some (d, r) =>
      match k d r with
      | some v => some v
      | none => tryLens rest cs k
    | none => tryLens rest cs k

/-- Match `G1 sep G2 sep G3` at the head of `cs`. -/
def matchDateAt (g1 g2 g3 : List Nat) (cs : List Char) :
    Option (String × String × String) :=
  tryLens g1 cs fun d1 r1 =>
    match r1 with
    | s1 :: r1b =>
      if isDateSep s1 then
        tryLens g2 r1b fun d2 r2 =>
          match r2 with
          | s2 :: r2b =>
            if isDateSep s2 then
              tryLens g3 r2b fun d3 _ =>
                some (String.mk d1, String.mk d2, String.mk d3)
            else none
          | [] => none
      else none
    | [] => none

/-- Leftmost match of the three-group pattern anywhere in the text, as
`str.match(pattern)` finds it. -/
def findDateMatch (g1 g2 g3 : List Nat) : List Char → Option (String × String × String)
  | [] => none
  | c :: cs =>
    match matchDateAt g1 g2 g3 (c :: cs) with
    | some m => some m
    | none => findDateMatch g1 g2 g3 cs

/-- Assemble the result string from a match, following the branch structure of
`normalizeDate`; `isFirstPattern` records whether the match came from
`patterns[0]`. -/
def formatDateMatch (isFirstPattern : Bool) (m1 m2 m3 : String) : String :=
  if m3.length = 4 then
    if isFirstPattern then
      m3 ++ "-" ++ padStart2 m2 ++ "-" ++ padStart2 m1
    else
      m1 ++ "-" ++ padStart2 m2 ++ "-" ++ padStart2 m3
  else
    let day := padStart2 m1
    let month := padStart2 m2
    let yearNum := natOfDigits m3.data
    let year := if yearNum ≤ 30 then "20" ++ m3 else "19" ++ m3
    year ++ "-" ++ month ++ "-" ++ day

/-- Embedding of `normalizeDate` (`src/unnamed/part_000`): try
`DD-MM-YYYY`-shaped, then `YYYY-MM-DD`-shaped, then `DD-MM-YY`-shaped
patterns anywhere in the trimmed input; `none` models the `null` returns for
absent, empty or unmatched input. -/
def normalizeDate (dateStr : Option String) : Option String :=
  match dateStr with
  | none => none
  | some s0 =>
    if s0 = "" then none
    else
      let str := jsTrim s0
      if str = "" then none
      else
        match findDateMatch [2, 1] [2, 1] [4] str.data with
        | some (m1, m2, m3) => some (formatDateMatch true m1 m2 m3)
        | none =>
          match findDateMatch [4] [2, 1] [2, 1] str.data with
          | some (m1, m2, m3) => some (formatDateMatch false m1 m2 m3)
          | none =>
            match findDateMatch [2, 1] [2, 1] [2] str.data with
            | some (m1, m2, m3) => some (formatDateMatch false m1 m2 m3)
            | none => none

/-! ### Amount normalization -/

/-- The two `replace` calls of `normalizeAmount`: drop the rupee sign, commas
and whitespace, then keep only digits, dots and minus signs. -/
def cleanAmountChars (cs : List Char) : List Char :=
  (cs.filter (fun c => !(c == '₹' || c == ',' || jsIsSpace c))).filter
    (fun c => c.isDigit || c == '.' || c == '-')

/-- Fractional value of a digit list read after the decimal point. -/
def fracOfDigits (ds : List Char) : ℚ :=
  (natOfDigits ds : ℚ) / (10 : ℚ) ^ ds.length

/-- JavaScript `parseFloat` restricted to the post-cleaning character set
(digits, dots, minus signs): optional leading sign, then a decimal mantissa
which must contain at least one digit; trailing junk is ignored; `none`
models `NaN`. -/
def parseFloatQ (cs : List Char) : Option ℚ :=
  let signAndRest : ℚ × List Char :=
    match cs with
    | '-' :: r => (-1, r)
    | '+' :: r => (1, r)
    | r => (1, r)
  let sign := signAndRest.1
  let rest := signAndRest.2
  let intPart := rest.takeWhile Char.isDigit
  let rest2 := rest.dropWhile Char.isDigit
  match rest2 with
  | '.' :: r3 =>
    let fracPart := r3.takeWhile Char.isDigit
    if intPart.isEmpty && fracPart.isEmpty then none
    else some (sign * ((natOfDigits intPart : ℚ) + fracOfDigits fracPart))
  | _ =>
    if intPart.isEmpty then none
    else some (sign * (natOfDigits intPart : ℚ))

/-- Embedding of `normalizeAmount` (`src/unnamed/part_000`): strip currency
noise, parse as a decimal, return `0` for absent, empty, `"-"` or unparsable
input. -/
def normalizeAmount (amountStr : Option String) : ℚ :=
  match amountStr with
  | none => 0
  | some s0 =>
    if s0 = "" then 0
    else
      let str := jsTrim s0
      if str = "" || str = "-" then 0
      else
        match parseFloatQ (cleanAmountChars str.data) with
        | none => 0
        | some q => q

/-! ### Transaction identity and deduplication (`src/unnamed/part_002`) -/

/-- The `TransactionInput` interface of the duplicate-detection module. -/
structure TransactionInput where
  date : String
  narration : String
  ref_no : Option String := none
  withdrawal_amt : Option ℚ := none
  deposit_amt : Option ℚ := none
deriving DecidableEq, Repr

/-- JavaScript `x || y` on an optional number: `null`, `undefined` and `0`
are falsy. -/
def jsOrNum (x : Option ℚ) (y : ℚ) : ℚ :=
  match x with
  | none => y
  | some v => if v = 0 then y else v

/-- JavaScript `x || y` on a string: only `""` is falsy. -/
def jsOrStr (x y : String) : String :=
  if x = "" then y else x

/-- JavaScript truthiness of an optional string. -/
def jsTruthyStr : Option String → Bool
  | none => false
  | some s => !(s = "")

/-- The `date|narration|amount` string hashed by `generateTransactionHash`. -/
def transactionHashInput (nts : ℚ → String) (t : TransactionInput) : String :=
  let date := jsOrStr t.date ""
  let narration := jsToLower (jsTrim (jsOrStr t.narration ""))
  let amount := nts (jsOrNum t.withdrawal_amt (jsOrNum t.deposit_amt 0))
  date ++ "|" ++ narration ++ "|" ++ amount

/-- Embedding of `generateTransactionHash`; `sha` abstracts the SHA-256 hex
digest, `nts` abstracts the JavaScript number-to-string rendering. -/
def generateTransactionHash (sha : String → String) (nts : ℚ → String)
    (t : TransactionInput) : String :=
  sha (transactionHashInput nts t)

/-- Embedding of `getTransactionIdentifier`: prefer a truthy, non-blank
`ref_no`, otherwise fall back to the content hash. -/
def getTransactionIdentifier (sha : String → String) (nts : ℚ → String)
    (t : TransactionInput) : String :=
  match t.ref_no with
  | some r => if !(r = "") && !(jsTrim r = "") then "ref:" ++ jsTrim r
              else "hash:" ++ generateTransactionHash sha nts t
  | none => "hash:" ++ generateTransactionHash sha nts t

/-- Embedding of `areTransactionsDuplicate`: compare trimmed reference
numbers when both are truthy, otherwise compare content hashes. -/
def areTransactionsDuplicate (sha : String → String) (nts : ℚ → String)
    (t1 t2 : TransactionInput) : Bool :=
  if jsTruthyStr t1.ref_no && jsTruthyStr t2.ref_no then
    match t1.ref_no, t2.ref_no with
    | some r1, some r2 => jsTrim r1 == jsTrim r2
    | _, _ => false
  else
    generateTransactionHash sha nts t1 == generateTransactionHash sha nts t2

/-- The `seen`-set loop of `removeDuplicates`, generic in the identifier
projection exactly as the TypeScript function is generic in
`T extends TransactionInput`. -/
def removeDuplicatesAux (ident : α → String) (seen : List String) :
    List α → List α
  | [] => []
  | t :: ts =>
    let i := ident t
    if i ∈ seen then removeDuplicatesAux ident seen ts
    else t :: removeDuplicatesAux ident (i :: seen) ts

/-- Embedding of `removeDuplicates` for an arbitrary identifier projection. -/
def removeDuplicatesBy (ident : α → String) (l : List α) : List α :=
  removeDuplicatesAux ident [] l

/-- `removeDuplicates` at the `TransactionInput` instantiation. -/
def removeDuplicates (sha : String → String) (nts : ℚ → String)
    (l : List TransactionInput) : List TransactionInput :=
  removeDuplicatesBy (getTransactionIdentifier sha nts) l

/-- Specification-side description of duplicate removal, following the words
of the spec: keep exactly the first occurrence of each identifier, in
original order. -/
def keepFirstOccurrence (key : α → String) : List α → List α
  | [] => []
  | t :: ts =>
    t :: keepFirstOccurrence key (ts.filter (fun u => decide (key u ≠ key t)))
termination_by l => l.length
decreasing_by
  simp only [List.length_cons]
  exact Nat.lt_succ_of_le (List.length_filter_le _ ts)

/-! ### HDFC header stripping (`src/lib/hdfc-parser.ts`) -/

/-- The header-row test of `stripHDFCHeaders`: the lowercased line contains
`date` together with a narration, amount or balance keyword. -/
def isHeaderLine (line : String) : Bool :=
  let l := jsToLower line
  let hasDate := jsIncludes l "date"
  let hasNarration :=
    jsIncludes l "narration" || jsIncludes l "description" || jsIncludes l "particulars"
  let hasAmount :=
    jsIncludes l "withdrawal" || jsIncludes l "deposit" || jsIncludes l "debit" ||
      jsIncludes l "credit" || jsIncludes l "amount"
  let hasBalance := jsIncludes l "balance"
  (hasDate && hasNarration) || (hasDate && hasAmount) || (hasDate && hasBalance)

/-- Index of the first list element satisfying `p`, as the scanning loops of
`stripHDFCHeaders` compute it. -/
def findIdxFrom (p : String → Bool) : List String → Option Nat
  | [] => none
  | x :: xs => if p x then some 0 else (findIdxFrom p xs).map (· + 1)

/-- The fallback data-row test: the line matches the `\d{1,2}` dash-or-slash
`\d{1,2}` dash-or-slash `\d{2,4}` pattern and splits into at least three
comma-separated fields. -/
def isDataRowLine (line : String) : Bool :=
  (findDateMatch [2, 1] [2, 1] [4, 3, 2] line.data).isSome &&
    decide ((jsSplit line ',').length ≥ 3)

/-- Backward header search of the fallback branch: scan the one or two lines
before the first data row for `date` or `narration`; otherwise take the line
directly before the data row. -/
def backScanHeaderIdx (lines : List String) (i : Nat) : Nat :=
  let isHeaderish := fun (j : Nat) =>
    let l := jsToLower ((lines.getD j ""))
    jsIncludes l "date" || jsIncludes l "narration"
  match (List.range' (i - 2) (min i 2)).find? isHeaderish with
  | some j => j
  | none => i - 1

/-- Fallback branch of `stripHDFCHeaders`: look within the first 30 lines for
a data-shaped row and back-scan for its header. -/
def fallbackHeaderIdx (lines : List String) : Option Nat :=
  (findIdxFrom isDataRowLine (lines.take 30)).map (backScanHeaderIdx lines)

/-- Line-level body of `stripHDFCHeaders`: keyword scan, then the data-row
fallback, then the fixed 22-line skip. -/
def stripHDFCHeadersLines (lines : List String) : List String :=
  match findIdxFrom isHeaderLine lines with
  | some i => lines.drop i
  | none =>
    match fallbackHeaderIdx lines with
    | some i => lines.drop i
    | none => lines.drop 22

/-- Embedding of `stripHDFCHeaders`: split on newlines, locate the header
row, and rejoin from there. -/
def stripHDFCHeaders (csvText : String) : String :=
  jsJoin (stripHDFCHeadersLines (jsSplit csvText '\n')) '\n'

/-! ### Transaction grouping (`src/lib/transaction-grouping.ts`) -/

/-- The `Transaction` interface of the grouping module. -/
structure Transaction where
  id : String
  date : String
  narration : String
  ref_no : Option String := none
  value_date : Option String := none
  withdrawal_amt : ℚ
  deposit_amt : ℚ
  closing_balance : Option ℚ := none
  tags : List String := []
  category : Option String := none
deriving DecidableEq, Repr

/-- The synthetic `GroupedTransaction` aggregate. -/
structure GroupedTransaction where
  id : String
  date : String
  narration : String
  withdrawal_amt : ℚ
  deposit_amt : ℚ
  closing_balance : Option ℚ := none
  count : Nat
  transactions : List Transaction
deriving DecidableEq, Repr

/-- `DisplayTransaction`: a plain transaction or a grouped aggregate. -/
inductive DisplayTransaction where
  | txn (t : Transaction)
  | group (g : GroupedTransaction)
deriving DecidableEq, Repr

/-- JavaScript `x || 0` on a number. -/
def jsOrZero (x : ℚ) : ℚ :=
  if x = 0 then 0 else x

/-- JavaScript `x || null` on an optional number: `0` collapses to `null`. -/
def jsOrNull (x : Option ℚ) : Option ℚ :=
  match x with
  | none => none
  | some v => if v = 0 then none else some v

/-- The reductions `txns.reduce((sum, t) => sum + (t.withdrawal_amt || 0), 0)`
of the grouping module. -/
def sumWithdrawals (txns : List Transaction) : ℚ :=
  txns.foldl (fun sum t => sum + jsOrZero t.withdrawal_amt) 0

def sumDeposits (txns : List Transaction) : ℚ :=
  txns.foldl (fun sum t => sum + jsOrZero t.deposit_amt) 0

/-- `txns[txns.length - 1]?.closing_balance || null`. -/
def latestBalance (txns : List Transaction) : Option ℚ :=
  jsOrNull (txns.getLast?.bind Transaction.closing_balance)

/-- Insertion-ordered bucket map used by `groupByDate`: a JavaScript `Map`
from date key to the list of member transactions, in first-insertion key
order with members appended in arrival order. -/
def insertBucket (key : String) (t : Transaction) :
    List (String × List Transaction) → List (String × List Transaction)
  | [] => [(key, [t])]
  | (k, ts) :: rest =>
    if k = key then (k, ts ++ [t]) :: rest
    else (k, ts) :: insertBucket key t rest

/-- The date key `txn.date || "unknown"`. -/
def dateKey (t : Transaction) : String :=
  jsOrStr t.date "unknown"

/-- A stable comparator-driven sort standing in for
`Array.prototype.sort(cmp)`; only the fact that it permutes its input is
used by the theorems below. -/
def insertSorted (le : α → α → Bool) (x : α) : List α → List α
  | [] => [x]
  | y :: ys => if le x y then x :: y :: ys else y :: insertSorted le x ys

def jsSortBy (le : α → α → Bool) (l : List α) : List α :=
  l.foldr (insertSorted le) []

/-- The date-descending comparator `(a, b) => dateB - dateA`, with
`getTime` abstracting `new Date(s).getTime()`. -/
def dateDescLe (getTime : String → Int) (a b : String) : Bool :=
  decide (getTime b ≤ getTime a)

/-- Build the `GroupedTransaction` emitted per date bucket. -/
def mkDateGroup (key : String) (txns : List Transaction) : GroupedTransaction :=
  { id := "group-date-" ++ key
    date := key
    narration := Nat.repr txns.length ++ " transaction" ++
      (if txns.length ≠ 1 then "s" else "")
    withdrawal_amt := sumWithdrawals txns
    deposit_amt := sumDeposits txns
    closing_balance := latestBalance txns
    count := txns.length
    transactions := txns }

/-- Embedding of `groupByDate`: bucket by date key in insertion order, emit
one grouped row per bucket, sort date-descending. -/
def groupByDate (getTime : String → Int) (transactions : List Transaction) :
    List DisplayTransaction :=
  let groups := transactions.foldl (fun gs t => insertBucket (dateKey t) t gs) []
  let grouped := groups.map (fun kv => mkDateGroup kv.1 kv.2)
  (jsSortBy (fun a b => dateDescLe getTime a.date b.date) grouped).map .group

/-- Levenshtein distance, row by row: one row update of the dynamic
programming matrix. -/
def levRowGo (c2 : Char) : List Char → Nat → List Nat → Nat → List Nat
  | [], _, _, _ => []
  | _ :: _, _, [], _ => []
  | c1 :: cs, diag, pj :: ps, left =>
    let q := if c2 == c1 then diag else 1 + min diag (min pj left)
    q :: levRowGo c2 cs pj ps q

/-- Next row of the Levenshtein matrix given the previous row. -/
def levNextRow (c2 : Char) (s1 : List Char) (prev : List Nat) (i : Nat) :
    List Nat :=
  match prev with
  | [] => [i]
  | p0 :: ps => i :: levRowGo c2 s1 p0 ps i

/-- Embedding of `levenshteinDistance`: the textbook dynamic program of the
grouping module, computed row by row; the result is the bottom-right matrix
entry. -/
def levenshteinDistance (str1 str2 : String) : Nat :=
  let s1 := str1.data
  let row0 := List.range (s1.length + 1)
  let final := str2.data.foldl
    (fun (st : List Nat × Nat) c2 => (levNextRow c2 s1 st.1 (st.2 + 1), st.2 + 1))
    (row0, 0)
  final.1.getLastD 0

/-- Embedding of `stringSimilarity`: normalized Levenshtein distance of the
lowercased strings, `1.0` when both are empty. -/
def stringSimilarity (str1 str2 : String) : ℚ :=
  let longer := if str1.length > str2.length then str1 else str2
  let shorter := if str1.length > str2.length then str2 else str1
  if longer.length = 0 then 1
  else (levenshteinDistance (jsToLower longer) (jsToLower shorter) : ℚ) / (longer.length : ℚ)

/-- Collapse every whitespace run to a single space, as
`replace(/\s+/g, " ")` does. -/
def collapseWsAux (prevWs : Bool) : List Char → List Char
  | [] => []
  | c :: cs =>
    if jsIsSpace c then
      if prevWs then collapseWsAux true cs
      else ' ' :: collapseWsAux true cs
    else c :: collapseWsAux false cs

/-- The leading transaction-type tokens stripped by `normalizeNarration`. -/
def typeTokens : List (List Char) :=
  ["upi", "neft", "imps", "rtgs", "atm", "pos", "card", "online", "payment",
    "transfer"].map String.data

/-- The trailing boilerplate tokens stripped by `normalizeNarration`. -/
def boilerplateTokens : List (List Char) :=
  ["payment", "transfer", "transaction", "ref", "ref no", "refno"].map String.data

/-- Strip one leading type token plus following whitespace, as the anchored
first `replace` of `normalizeNarration` does. -/
def stripTypeToken (cs : List Char) : List Char :=
  match typeTokens.find? (fun tok => startsWithChars tok cs) with
  | some tok => (cs.drop tok.length).dropWhile jsIsSpace
  | none => cs

/-- Does a boilerplate token start here, after optional whitespace?  This is
the match condition of the suffix-stripping `replace` at one position. -/
def boilerplateAt (cs : List Char) : Bool :=
  boilerplateTokens.any (fun tok => startsWithChars tok (cs.dropWhile jsIsSpace))

/-- Drop everything from the leftmost position where optional whitespace is
followed by a boilerplate token, reproducing the suffix-stripping `replace`. -/
def stripBoilerplate : List Char → List Char
  | [] => []
  | c :: cs =>
    if boilerplateAt (c :: cs) then []
    else c :: stripBoilerplate cs

/-- Embedding of `normalizeNarration`: lowercase, trim, collapse whitespace,
strip a leading transaction-type token, strip trailing boilerplate, trim. -/
def normalizeNarration (narration : String) : String :=
  String.mk (trimChars (stripBoilerplate (stripTypeToken
    (collapseWsAux false (trimChars (narration.data.map Char.toLower))))))

/-- Inner `forEach` of `groupByNarration`: collect every still-unprocessed
transaction whose normalized narration is close enough, marking it
processed. -/
def collectSimilar (threshold : ℚ) (norm : String) :
    List Transaction → List String → List Transaction × List String
  | [], processed => ([], processed)
  | u :: us, processed =>
    if u.id ∈ processed then collectSimilar threshold norm us processed
    else
      if stringSimilarity norm (normalizeNarration u.narration) ≤ threshold then
        (u :: (collectSimilar threshold norm us (u.id :: processed)).1,
          (collectSimilar threshold norm us (u.id :: processed)).2)
      else collectSimilar threshold norm us processed

/-- Outer `forEach` of `groupByNarration`: each unprocessed transaction seeds
a cluster of similar unprocessed transactions drawn from the whole list. -/
def buildGroups (all : List Transaction) (threshold : ℚ) :
    List Transaction → List String → List (List Transaction)
  | [], _ => []
  | t :: ts, processed =>
    if t.id ∈ processed then buildGroups all threshold ts processed
    else
      (t :: (collectSimilar threshold (normalizeNarration t.narration)
          all (t.id :: processed)).1) ::
        buildGroups all threshold ts
          (collectSimilar threshold (normalizeNarration t.narration)
            all (t.id :: processed)).2

/-- Result row per cluster: singles pass through, larger clusters become a
`GroupedTransaction` headed by the first member. -/
def displayOfGroup (g : List Transaction) : DisplayTransaction :=
  match g with
  | [] => .txn { id := "", date := "", narration := "", withdrawal_amt := 0, deposit_amt := 0 }
  | [t] => .txn t
  | t :: rest =>
    .group
      { id := "group-narration-" ++ t.id
        date := t.date
        narration := t.narration ++ " (" ++ Nat.repr (t :: rest).length ++ " similar)"
        withdrawal_amt := sumWithdrawals (t :: rest)
        deposit_amt := sumDeposits (t :: rest)
        closing_balance := latestBalance (t :: rest)
        count := (t :: rest).length
        transactions := t :: rest }

/-- Date shown on one display row, as the sort comparators read it. -/
def displayDate : DisplayTransaction → String
  | .txn t => t.date
  | .group g => g.date

/-- Embedding of `groupByNarration`: greedy clustering by narration
similarity, then date-descending sort. -/
def groupByNarration (getTime : String → Int) (transactions : List Transaction)
    (similarityThreshold : ℚ) : List DisplayTransaction :=
  jsSortBy (fun a b => dateDescLe getTime (displayDate a) (displayDate b))
    ((buildGroups transactions similarityThreshold transactions []).map displayOfGroup)

/-- The grouping mode enumeration. -/
inductive GroupMode where
  | modeNone
  | modeDate
  | modeNarration
deriving DecidableEq, Repr

/-- Embedding of `groupTransactions`: dispatch on the mode; the narration
mode uses the default similarity threshold `0.3`. -/
def groupTransactions (getTime : String → Int) (transactions : List Transaction)
    (mode : GroupMode) : List DisplayTransaction :=
  match mode with
  | .modeDate => groupByDate getTime transactions
  | .modeNarration => groupByNarration getTime transactions (3 / 10)
  | .modeNone => transactions.map .txn

/-- The member transactions carried by one display row. -/
def membersOf : DisplayTransaction → List Transaction
  | .txn t => [t]
  | .group g => g.transactions

/-- Withdrawal amount shown on one display row. -/
def displayWithdrawal : DisplayTransaction → ℚ
  | .txn t => t.withdrawal_amt
  | .group g => g.withdrawal_amt

/-- Deposit amount shown on one display row. -/
def displayDeposit : DisplayTransaction → ℚ
  | .txn t => t.deposit_amt
  | .group g => g.deposit_amt

/-! ### Upload route handler (`POST` of the upload API route) -/

/-- The `Partial<TransactionInsert>` object built row by row; every field is
optional until the defaults are applied. -/
structure TransactionInsert where
  date : Option String := none
  narration : Option String := none
  ref_no : Option String := none
  value_date : Option String := none
  withdrawal_amt : Option ℚ := none
  deposit_amt : Option ℚ := none
  closing_balance : Option ℚ := none
  tags : Option (List String) := none
  category : Option String := none
deriving DecidableEq, Repr

/-- An uploaded row: the parsed CSV cells, keyed by column name. -/
def UploadRow : Type := List (String × String)

/-- `row[csvColumn]`, falling back to a case-insensitive key match as the
handler does. -/
def rowLookup (row : UploadRow) (col : String) : Option String :=
  match (List.find? (fun kv => kv.1 = col) row).map Prod.snd with
  | some v => some v
  | none =>
    match List.find? (fun kv => jsToLower kv.1 = jsToLower col) row with
    | some kv => some kv.2
    | none => none

/-- One case of the handler's mapping `switch`, updating the partial
transaction from the cell value. -/
def applyColumn (tr : TransactionInsert) (dbColumn : String)
    (value : Option String) : TransactionInsert :=
  if dbColumn = "date" then
    { tr with date := match normalizeDate value with
        | some d => if d = "" then none else some d
        | none => none }
  else if dbColumn = "value_date" then
    { tr with value_date := match normalizeDate value with
        | some d => if d = "" then none else some d
        | none => none }
  else if dbColumn = "narration" then
    { tr with narration := some (jsTrim (match value with
        | some v => jsOrStr v ""
        | none => "")) }
  else if dbColumn = "ref_no" then
    { tr with ref_no := match value with
        | some v => if v = "" then none else some (jsTrim v)
        | none => none }
  else if dbColumn = "withdrawal_amt" then
    { tr with withdrawal_amt := some (normalizeAmount value) }
  else if dbColumn = "deposit_amt" then
    { tr with deposit_amt := some (normalizeAmount value) }
  else if dbColumn = "closing_balance" then
    { tr with closing_balance := jsOrNull (some (normalizeAmount value)) }
  else tr

/-- The `Object.entries(mapping).forEach` transformation of one row: skip
`"skip"` and `null` targets, look the cell up, dispatch on the target
column. -/
def applyMapping (mapping : List (String × Option String)) (row : UploadRow) :
    TransactionInsert :=
  mapping.foldl
    (fun tr kv =>
      match kv.2 with
      | none => tr
      | some dbColumn =>
        if dbColumn = "skip" then tr
        else applyColumn tr dbColumn (rowLookup row kv.1))
    {}

/-- JavaScript falsiness of an optional string field. -/
def jsFalsyOptStr : Option String → Bool
  | none => true
  | some s => s = ""

/-- The default-filling step of the transformation:
`withdrawal_amt ?? 0`, `deposit_amt ?? 0`, `category || "Uncategorized"`,
`tags || []`. -/
def withDefaults (tr0 : TransactionInsert) : TransactionInsert :=
  { tr0 with
      withdrawal_amt := some (tr0.withdrawal_amt.getD 0)
      deposit_amt := some (tr0.deposit_amt.getD 0)
      category := some (jsOrStr (tr0.category.getD "") "Uncategorized")
      tags := some (tr0.tags.getD []) }

/-- Transform one row: apply the mapping, fill the defaults, and drop the
row when `date` or `narration` is missing after normalization. -/
def transformRow (mapping : List (String × Option String)) (row : UploadRow) :
    Option TransactionInsert :=
  if jsFalsyOptStr (withDefaults (applyMapping mapping row)).date ||
      jsFalsyOptStr (withDefaults (applyMapping mapping row)).narration then none
  else some (withDefaults (applyMapping mapping row))

/-- View of a validated insert as the duplicate-detection input the handler
passes to `removeDuplicates`. -/
def insertToInput (tr : TransactionInsert) : TransactionInput :=
  { date := tr.date.getD ""
    narration := tr.narration.getD ""
    ref_no := tr.ref_no
    withdrawal_amt := tr.withdrawal_amt
    deposit_amt := tr.deposit_amt }

/-- Outcome of the handler, up to the storage boundary: an early JSON error
response with its status code, or the deduplicated batch handed to
`upsertTransactions`. -/
inductive UploadOutcome where
  | reject (status : Nat) (error : String)
  | toStorage (txns : List TransactionInsert)
deriving DecidableEq, Repr

/-- The database columns named by the mapping, ignoring `"skip"` and `null`
entries. -/
def mappedDbColumns (mapping : List (String × Option String)) : List String :=
  (mapping.map Prod.snd).filterMap
    (fun c => match c with
      | some v => if v = "skip" then none else some v
      | none => none)

/-- Embedding of the upload `POST` handler body after JSON decoding:
validate the mapping, transform and validate the rows, deduplicate, and
hand the surviving batch to storage. -/
def handleUpload (sha : String → String) (nts : ℚ → String)
    (transactions : List UploadRow)
    (mapping : List (String × Option String)) : UploadOutcome :=
  if ¬ ((mappedDbColumns mapping).contains "date" &&
      (mappedDbColumns mapping).contains "narration") then
    .reject 400 ("Date and Narration columns are required. Please map at least " ++
      "one CSV column to 'date' and one to 'narration'.")
  else if (transactions.filterMap (transformRow mapping)).length = 0 then
    .reject 400 "No valid transactions to upload"
  else
    .toStorage (removeDuplicatesBy
      (fun tr => getTransactionIdentifier sha nts (insertToInput tr))
      (transactions.filterMap (transformRow mapping)))

/-! ### Specification-side definitions

These definitions follow the words of the specification; the refinement
theorems below compare them with the embeddings of the source. -/

/-- The amount the specification says enters the hash: `withdrawal_amt` if
nonzero, else `deposit_amt` if nonzero, else `0`. -/
def specAmount (t : TransactionInput) : ℚ :=
  let w := t.withdrawal_amt.getD 0
  let d := t.deposit_amt.getD 0
  if w ≠ 0 then w else if d ≠ 0 then d else 0

/-- The hash input the specification describes:
`date + "|" + lowercased-trimmed-narration + "|" + amount`. -/
def specHashInput (nts : ℚ → String) (t : TransactionInput) : String :=
  t.date ++ "|" ++ jsToLower (jsTrim t.narration) ++ "|" ++ nts (specAmount t)

/-- The identifier the specification describes: `"ref:" + trimmed ref_no`
when `ref_no` is present and non-blank after trimming, otherwise
`"hash:" + sha256(hash input)`. -/
def specIdentifier (sha : String → String) (nts : ℚ → String)
    (t : TransactionInput) : String :=
  match t.ref_no with
  | some r => if jsTrim r ≠ "" then "ref:" ++ jsTrim r
              else "hash:" ++ sha (specHashInput nts t)
  | none => "hash:" ++ sha (specHashInput nts t)

/-! ### Helper lemmas -/

theorem jsOrStr_empty (s : String) : jsOrStr s "" = s := by
  unfold jsOrStr
  split <;> simp_all

theorem jsTrim_empty : jsTrim "" = "" := rfl

theorem jsOrZero_eq (x : ℚ) : jsOrZero x = x := by
  unfold jsOrZero
  split <;> simp_all

/-! ### Claim C1: the identifier function matches its specification -/

theorem transactionHashInput_eq_spec (nts : ℚ → String) (t : TransactionInput) :
    transactionHashInput nts t = specHashInput nts t := by
  unfold transactionHashInput specHashInput specAmount jsOrNum
  rw [jsOrStr_empty, jsOrStr_empty]
  rcases hw : t.withdrawal_amt with _ | w <;> rcases hd : t.deposit_amt with _ | d <;>
    simp only [Option.getD_some, Option.getD_none] <;> split_ifs <;> simp_all

/-- Claim C1: for every transaction, `getTransactionIdentifier` returns
`"ref:" + trimmed ref_no` when `ref_no` is present and non-blank after
trimming, and otherwise `"hash:" + sha256` of
`date + "|" + lowercased-trimmed-narration + "|" + amount` with the amount
being `withdrawal_amt` if nonzero, else `deposit_amt` if nonzero, else `0`;
being a total Lean function, it never fails. -/
theorem getTransactionIdentifier_eq_spec (sha : String → String)
    (nts : ℚ → String) (t : TransactionInput) :
    getTransactionIdentifier sha nts t = specIdentifier sha nts t := by
  unfold getTransactionIdentifier specIdentifier generateTransactionHash
  rw [transactionHashInput_eq_spec]
  rcases hr : t.ref_no with _ | r
  · rfl
  · by_cases hr0 : r = ""
    · subst hr0
      simp [jsTrim_empty]
    · by_cases ht : jsTrim r = "" <;> simp [hr0, ht]

/-! ### Claim C7: normalizeDate is not idempotent on its own output -/

/-- Claim C7 fails on the code: the input `"05-11-2024"` normalizes to
`"2024-11-05"`, but feeding that canonical output back in yields
`"2005-11-2024"` — the year-first branch of `normalizeDate` tests the length
of the third capture group (the day) instead of the first (the year), so
every `YYYY-MM-DD` input is mis-parsed through the two-digit-year branch.
This contradicts the function's own documentation (`Normalizes a date string
to YYYY-MM-DD format`) and the dead `YYYY-MM-DD` assignment branch in its
body. -/
theorem normalizeDate_not_idempotent_on_canonical_output :
    normalizeDate (some "05-11-2024") = some "2024-11-05" ∧
    normalizeDate (some "2024-11-05") = some "2005-11-2024" ∧
    normalizeDate (normalizeDate (some "05-11-2024")) ≠
      normalizeDate (some "05-11-2024") := by
  refine ⟨by decide, by decide, by decide⟩

/-! ### Claim C8: normalizeAmount is total with sentinel zero returns -/

/-- Claim C8: `normalizeAmount` always returns a number: `0` for absent and
empty input, for `"-"`, and whenever the cleaned text fails to parse; and a
negative return value is possible. -/
theorem normalizeAmount_total_with_zero_sentinels (s : String)
    (h : parseFloatQ (cleanAmountChars (jsTrim s).data) = none) :
    normalizeAmount none = 0 ∧
    normalizeAmount (some "") = 0 ∧
    normalizeAmount (some "-") = 0 ∧
    normalizeAmount (some s) = 0 ∧
    ∃ t, normalizeAmount (some t) < 0 := by
  refine ⟨rfl, rfl, by decide, ?_, ?_⟩
  · simp only [normalizeAmount]
    split_ifs with h1 h2
    · rfl
    · rfl
    · rw [h]
  · refine ⟨"-5", ?_⟩
    have h5 : normalizeAmount (some "-5") = (-1 : ℚ) * ((5 : ℕ) : ℚ) := rfl
    rw [h5]
    norm_num

theorem normalizeAmount_total_with_zero_sentinels_witness :
    parseFloatQ (cleanAmountChars (jsTrim "--").data) = none ∧
    normalizeAmount (some "--") = 0 := by
  refine ⟨by decide, (normalizeAmount_total_with_zero_sentinels "--" (by decide)).2.2.2.1⟩

/-! ### Claim C10: ref-based and hash-based identifiers never coincide -/

theorem ref_identifier_shape (sha : String → String) (nts : ℚ → String)
    (a : TransactionInput) (r : String) (hr : a.ref_no = some r)
    (hrt : jsTrim r ≠ "") :
    getTransactionIdentifier sha nts a = "ref:" ++ jsTrim r := by
  have hr0 : r ≠ "" := by
    intro h0
    exact hrt (h0 ▸ jsTrim_empty)
  unfold getTransactionIdentifier
  rw [hr]
  simp [hr0, hrt]

theorem hash_identifier_shape (sha : String → String) (nts : ℚ → String)
    (b : TransactionInput)
    (hb : b.ref_no = none ∨ ∃ r, b.ref_no = some r ∧ jsTrim r = "") :
    getTransactionIdentifier sha nts b =
      "hash:" ++ generateTransactionHash sha nts b := by
  unfold getTransactionIdentifier
  rcases hb with hb | ⟨r, hb, hrt⟩
  · rw [hb]
  · rw [hb]
    simp [hrt]

theorem ref_ne_hash_string (x y : String) : "ref:" ++ x ≠ "hash:" ++ y := by
  intro h
  have hd := congrArg String.data h
  simp only [String.data_append] at hd
  simp at hd

/-- Claim C10: when `a` carries a non-blank `ref_no` and `b` carries none
(or a blank one), their identifiers differ — the `"ref:"` and `"hash:"`
prefixes never coincide — so `removeDuplicates [a, b]` keeps both elements,
even in the situation where `areTransactionsDuplicate a b` holds because
date, normalized narration and amount agree. -/
theorem ref_and_hash_identifiers_differ (sha : String → String)
    (nts : ℚ → String) (a b : TransactionInput)
    (ha : ∃ r, a.ref_no = some r ∧ jsTrim r ≠ "")
    (hb : b.ref_no = none ∨ ∃ r, b.ref_no = some r ∧ jsTrim r = "") :
    getTransactionIdentifier sha nts a ≠ getTransactionIdentifier sha nts b ∧
    removeDuplicates sha nts [a, b] = [a, b] := by
  obtain ⟨r, hr, hrt⟩ := ha
  have hane : getTransactionIdentifier sha nts a ≠ getTransactionIdentifier sha nts b := by
    rw [ref_identifier_shape sha nts a r hr hrt, hash_identifier_shape sha nts b hb]
    exact ref_ne_hash_string _ _
  refine ⟨hane, ?_⟩
  unfold removeDuplicates removeDuplicatesBy
  simp [removeDuplicatesAux, hane.symm]

def witnessTxnA : TransactionInput :=
  { date := "2024-01-10", narration := "ATM WDL", ref_no := some "R1",
    withdrawal_amt := some 500 }

def witnessTxnB : TransactionInput :=
  { date := "2024-01-10", narration := "ATM WDL", ref_no := none,
    withdrawal_amt := some 500 }

theorem ref_and_hash_identifiers_differ_witness :
    areTransactionsDuplicate (fun _ => "H") (fun _ => "N") witnessTxnA witnessTxnB = true ∧
    getTransactionIdentifier (fun _ => "H") (fun _ => "N") witnessTxnA ≠
      getTransactionIdentifier (fun _ => "H") (fun _ => "N") witnessTxnB ∧
    removeDuplicates (fun _ => "H") (fun _ => "N") [witnessTxnA, witnessTxnB] =
      [witnessTxnA, witnessTxnB] := by
  refine ⟨by decide, ?_⟩
  have h := ref_and_hash_identifiers_differ (fun _ => "H") (fun _ => "N")
    witnessTxnA witnessTxnB ⟨"R1", rfl, by decide⟩ (Or.inl rfl)
  exact ⟨h.1, h.2⟩

/-! ### Claim C2: removeDuplicates keeps first occurrences, stably -/

theorem filter_swap (p q : α → Bool) :
    ∀ l : List α, (l.filter p).filter q = (l.filter q).filter p := by
  intro l
  induction l with
  | nil => rfl
  | cons x xs ih => by_cases hp : p x <;> by_cases hq : q x <;> simp [hp, hq, ih]

theorem filter_and (p q : α → Bool) :
    ∀ l : List α, (l.filter p).filter q = l.filter (fun a => p a && q a) := by
  intro l
  induction l with
  | nil => rfl
  | cons x xs ih => by_cases hp : p x <;> by_cases hq : q x <;> simp [hp, hq, ih]

theorem filter_self_idem (p : α → Bool) (l : List α) :
    (l.filter p).filter p = l.filter p := by
  rw [List.filter_eq_self]
  intro a ha
  exact List.of_mem_filter ha

theorem kfo_sublist_fuel (key : α → String) (n : Nat) :
    ∀ l : List α, l.length ≤ n → List.Sublist (keepFirstOccurrence key l) l := by
  induction n with
  | zero =>
    intro l hl
    rw [List.length_eq_zero.mp (Nat.le_zero.mp hl)]
    simp [keepFirstOccurrence]
  | succ n ih =>
    intro l hl
    match l with
    | [] => simp [keepFirstOccurrence]
    | t :: ts =>
      rw [keepFirstOccurrence]
      refine List.Sublist.cons₂ t ?_
      exact (ih _ (le_trans (List.length_filter_le _ ts)
        (Nat.le_of_succ_le_succ hl))).trans (List.filter_sublist ts)

theorem kfo_sublist (key : α → String) (l : List α) :
    List.Sublist (keepFirstOccurrence key l) l :=
  kfo_sublist_fuel key l.length l (le_refl _)

theorem kfo_filter_comm_fuel (key : α → String) (p : α → Bool)
    (hp : ∀ u v, key u = key v → p u = p v) (n : Nat) :
    ∀ l : List α, l.length ≤ n →
      keepFirstOccurrence key (l.filter p) = (keepFirstOccurrence key l).filter p := by
  induction n with
  | zero =>
    intro l hl
    rw [List.length_eq_zero.mp (Nat.le_zero.mp hl)]
    simp [keepFirstOccurrence]
  | succ n ih =>
    intro l hl
    match l with
    | [] => simp [keepFirstOccurrence]
    | t :: ts =>
      have hts : ts.length ≤ n := Nat.le_of_succ_le_succ hl
      by_cases hpt : p t = true
      · rw [List.filter_cons_of_pos hpt, keepFirstOccurrence, keepFirstOccurrence,
          List.filter_cons_of_pos hpt]
        rw [filter_swap]
        rw [ih _ (le_trans (List.length_filter_le _ ts) hts)]
      · have hpt2 : p t = false := Bool.eq_false_iff.mpr hpt
        rw [List.filter_cons_of_neg (by simp [hpt2]), keepFirstOccurrence,
          List.filter_cons_of_neg (by simp [hpt2])]
        rw [← ih _ (le_trans (List.length_filter_le _ ts) hts), filter_swap]
        congr 1
        symm
        rw [List.filter_eq_self]
        intro u hu
        have hpu : p u = true := List.of_mem_filter hu
        simp only [decide_eq_true_eq]
        intro hk
        rw [hp u t hk] at hpu
        rw [hpt2] at hpu
        exact Bool.false_ne_true hpu

theorem kfo_filter_comm (key : α → String) (p : α → Bool)
    (hp : ∀ u v, key u = key v → p u = p v) (l : List α) :
    keepFirstOccurrence key (l.filter p) = (keepFirstOccurrence key l).filter p :=
  kfo_filter_comm_fuel key p hp l.length l (le_refl _)

theorem kfo_idem_fuel (key : α → String) (n : Nat) :
    ∀ l : List α, l.length ≤ n →
      keepFirstOccurrence key (keepFirstOccurrence key l) = keepFirstOccurrence key l := by
  induction n with
  | zero =>
    intro l hl
    rw [List.length_eq_zero.mp (Nat.le_zero.mp hl)]
    simp [keepFirstOccurrence]
  | succ n ih =>
    intro l hl
    match l with
    | [] => simp [keepFirstOccurrence]
    | t :: ts =>
      have hts : (ts.filter (fun u => decide (key u ≠ key t))).length ≤ n :=
        le_trans (List.length_filter_le _ ts) (Nat.le_of_succ_le_succ hl)
      rw [keepFirstOccurrence]
      rw [keepFirstOccurrence]
      congr 1
      rw [← kfo_filter_comm key _ (fun u v huv => by simp [huv])]
      rw [filter_self_idem]
      exact ih _ hts

theorem kfo_idem (key : α → String) (l : List α) :
    keepFirstOccurrence key (keepFirstOccurrence key l) = keepFirstOccurrence key l :=
  kfo_idem_fuel key l.length l (le_refl _)

theorem removeDuplicatesAux_eq_kfo (ident : α → String) :
    ∀ (l : List α) (seen : List String),
      removeDuplicatesAux ident seen l =
        keepFirstOccurrence ident (l.filter (fun t => decide (ident t ∉ seen))) := by
  intro l
  induction l with
  | nil => intro seen; simp [removeDuplicatesAux, keepFirstOccurrence]
  | cons t ts ih =>
    intro seen
    by_cases hmem : ident t ∈ seen
    · rw [removeDuplicatesAux, if_pos hmem, ih seen,
        List.filter_cons_of_neg (by simp [hmem])]
    · rw [removeDuplicatesAux, if_neg hmem,
        List.filter_cons_of_pos (by simp [hmem]), keepFirstOccurrence, ih]
      congr 1
      rw [filter_and]
      congr 1
      refine List.filter_congr ?_
      intro u _
      by_cases h1 : ident u = ident t <;> by_cases h2 : ident u ∈ seen <;>
        simp [h1, h2]

theorem removeDuplicatesBy_eq_kfo (ident : α → String) (l : List α) :
    removeDuplicatesBy ident l = keepFirstOccurrence ident l := by
  unfold removeDuplicatesBy
  rw [removeDuplicatesAux_eq_kfo]
  congr 1
  simp

/-- Claim C2: `removeDuplicates` is idempotent, never increases length, and
its output is the subsequence of the input keeping exactly the first
occurrence of each identifier, in original order (the equality with
`keepFirstOccurrence`, together with the sublist fact). -/
theorem removeDuplicates_keeps_first_occurrences (sha : String → String)
    (nts : ℚ → String) (xs : List TransactionInput) :
    removeDuplicates sha nts (removeDuplicates sha nts xs) =
        removeDuplicates sha nts xs ∧
    (removeDuplicates sha nts xs).length ≤ xs.length ∧
    List.Sublist (removeDuplicates sha nts xs) xs ∧
    removeDuplicates sha nts xs =
      keepFirstOccurrence (getTransactionIdentifier sha nts) xs := by
  unfold removeDuplicates
  rw [removeDuplicatesBy_eq_kfo, removeDuplicatesBy_eq_kfo]
  exact ⟨kfo_idem _ _, (kfo_sublist _ _).length_le, kfo_sublist _ _, rfl⟩

/-! ### Claim C5: grouping by date conserves summed amounts -/

theorem insertSorted_perm (le : α → α → Bool) (x : α) :
    ∀ l : List α, (insertSorted le x l).Perm (x :: l) := by
  intro l
  induction l with
  | nil => exact List.Perm.refl _
  | cons y ys ih =>
    rw [insertSorted]
    split
    · exact List.Perm.refl _
    · exact (List.Perm.cons y ih).trans (List.Perm.swap x y ys)

theorem jsSortBy_perm (le : α → α → Bool) :
    ∀ l : List α, (jsSortBy le l).Perm l := by
  intro l
  induction l with
  | nil => exact List.Perm.refl _
  | cons x xs ih =>
    exact (insertSorted_perm le x (jsSortBy le xs)).trans (List.Perm.cons x ih)

theorem foldl_add_sum (f : Transaction → ℚ) :
    ∀ (ts : List Transaction) (init : ℚ),
      ts.foldl (fun s t => s + jsOrZero (f t)) init = init + (ts.map f).sum := by
  intro ts
  induction ts with
  | nil => intro init; simp
  | cons t ts ih =>
    intro init
    simp only [List.foldl_cons, List.map_cons, List.sum_cons]
    rw [ih, jsOrZero_eq]
    ring

theorem sumWithdrawals_eq (ts : List Transaction) :
    sumWithdrawals ts = (ts.map Transaction.withdrawal_amt).sum := by
  unfold sumWithdrawals
  rw [foldl_add_sum Transaction.withdrawal_amt ts 0]
  ring

theorem sumDeposits_eq (ts : List Transaction) :
    sumDeposits ts = (ts.map Transaction.deposit_amt).sum := by
  unfold sumDeposits
  rw [foldl_add_sum Transaction.deposit_amt ts 0]
  ring

/-- Total of `f` over every member of every bucket. -/
def bucketTotal (f : Transaction → ℚ) (gs : List (String × List Transaction)) : ℚ :=
  (gs.map (fun kv => (kv.2.map f).sum)).sum

theorem bucketTotal_insertBucket (f : Transaction → ℚ) (key : String)
    (t : Transaction) :
    ∀ gs, bucketTotal f (insertBucket key t gs) = bucketTotal f gs + f t := by
  intro gs
  induction gs with
  | nil => simp [insertBucket, bucketTotal]
  | cons kv rest ih =>
    obtain ⟨k, ts⟩ := kv
    rw [insertBucket]
    split
    · simp only [bucketTotal, List.map_cons, List.sum_cons, List.map_append,
        List.sum_append, List.map_nil, List.sum_nil]
      ring
    · simp only [bucketTotal, List.map_cons, List.sum_cons] at ih ⊢
      rw [ih]
      ring

theorem bucketTotal_foldl (f : Transaction → ℚ) :
    ∀ (txns : List Transaction) (gs0 : List (String × List Transaction)),
      bucketTotal f (txns.foldl (fun gs t => insertBucket (dateKey t) t gs) gs0) =
        bucketTotal f gs0 + (txns.map f).sum := by
  intro txns
  induction txns with
  | nil => intro gs0; simp
  | cons t ts ih =>
    intro gs0
    simp only [List.foldl_cons, List.map_cons, List.sum_cons]
    rw [ih, bucketTotal_insertBucket]
    ring

/-- Claim C5: grouping by date conserves amounts — the sum of
`withdrawal_amt` over the output of `groupTransactions txns date` equals the
sum over the input, and likewise for `deposit_amt`. -/
theorem groupByDate_conserves_sums (getTime : String → Int)
    (txns : List Transaction) :
    ((groupTransactions getTime txns .modeDate).map displayWithdrawal).sum =
        (txns.map Transaction.withdrawal_amt).sum ∧
    ((groupTransactions getTime txns .modeDate).map displayDeposit).sum =
        (txns.map Transaction.deposit_amt).sum := by
  constructor
  · show ((groupByDate getTime txns).map displayWithdrawal).sum = _
    unfold groupByDate
    rw [List.map_map]
    have hperm := (jsSortBy_perm
      (fun a b => dateDescLe getTime a.date b.date)
      ((txns.foldl (fun gs t => insertBucket (dateKey t) t gs) []).map
        (fun kv => mkDateGroup kv.1 kv.2))).map
      (displayWithdrawal ∘ DisplayTransaction.group)
    rw [hperm.sum_eq, List.map_map]
    have : (displayWithdrawal ∘ DisplayTransaction.group) ∘
        (fun kv : String × List Transaction => mkDateGroup kv.1 kv.2) =
        fun kv : String × List Transaction => sumWithdrawals kv.2 := rfl
    rw [this]
    have := bucketTotal_foldl Transaction.withdrawal_amt txns []
    simp only [bucketTotal] at this
    simp only [funext fun kv : String × List Transaction =>
      sumWithdrawals_eq kv.2]
    rw [this]
    simp [bucketTotal]
  · show ((groupByDate getTime txns).map displayDeposit).sum = _
    unfold groupByDate
    rw [List.map_map]
    have hperm := (jsSortBy_perm
      (fun a b => dateDescLe getTime a.date b.date)
      ((txns.foldl (fun gs t => insertBucket (dateKey t) t gs) []).map
        (fun kv => mkDateGroup kv.1 kv.2))).map
      (displayDeposit ∘ DisplayTransaction.group)
    rw [hperm.sum_eq, List.map_map]
    have : (displayDeposit ∘ DisplayTransaction.group) ∘
        (fun kv : String × List Transaction => mkDateGroup kv.1 kv.2) =
        fun kv : String × List Transaction => sumDeposits kv.2 := rfl
    rw [this]
    have := bucketTotal_foldl Transaction.deposit_amt txns []
    simp only [bucketTotal] at this
    simp only [funext fun kv : String × List Transaction =>
      sumDeposits_eq kv.2]
    rw [this]
    simp [bucketTotal]

/-! ### Claim C9: the header stripper starts the output at the header line -/

theorem findIdxFrom_eq_some (p : String → Bool) :
    ∀ (l : List String) (k : Nat) (x : String),
      l[k]? = some x → p x = true →
      (l.take k).all (fun y => !(p y)) = true →
      findIdxFrom p l = some k := by
  intro l
  induction l with
  | nil => intro k x hk; simp at hk
  | cons a as ih =>
    intro k x hk hpx hall
    match k with
    | 0 =>
      simp only [List.getElem?_cons_zero, Option.some.injEq] at hk
      subst hk
      rw [findIdxFrom, if_pos hpx]
    | k + 1 =>
      simp only [List.getElem?_cons_succ] at hk
      simp only [List.take_succ_cons, List.all_cons, Bool.and_eq_true,
        Bool.not_eq_true'] at hall
      rw [findIdxFrom, if_neg (by simp [hall.1]), ih k x hk hpx hall.2]
      rfl

theorem head?_drop_eq (l : List α) : ∀ k : Nat, (l.drop k).head? = l[k]? := by
  induction l with
  | nil => intro k; simp
  | cons a as ih =>
    intro k
    match k with
    | 0 => simp
    | k + 1 =>
      simp only [List.drop_succ_cons, List.getElem?_cons_succ]
      exact ih k

/-- Claim C9: when some line of the input is the first one satisfying the
header test (it contains `date` together with a narration, amount or balance
keyword) and at least one further line follows it, the stripped output
starts exactly at that line. -/
theorem stripHDFCHeaders_starts_at_header (s : String) (k : Nat) (hdr : String)
    (hk : (jsSplit s '\n')[k]? = some hdr)
    (hhdr : isHeaderLine hdr = true)
    (hbefore : ((jsSplit s '\n').take k).all (fun y => !(isHeaderLine y)) = true)
    (_hdata : k + 1 < (jsSplit s '\n').length) :
    (stripHDFCHeadersLines (jsSplit s '\n')).head? = some hdr := by
  have hfind : findIdxFrom isHeaderLine (jsSplit s '\n') = some k :=
    findIdxFrom_eq_some isHeaderLine (jsSplit s '\n') k hdr hk hhdr hbefore
  unfold stripHDFCHeadersLines
  rw [hfind]
  rw [head?_drop_eq]
  exact hk

theorem stripHDFCHeaders_starts_at_header_witness :
    (stripHDFCHeadersLines (jsSplit
      "HDFC Bank Ltd\nStatement of account\nDate,Narration,Chq/Ref No,Withdrawal Amt,Deposit Amt,Closing Balance\n01-01-2024,Test,R1,100,0,900" '\n')).head? =
      some "Date,Narration,Chq/Ref No,Withdrawal Amt,Deposit Amt,Closing Balance" := by
  exact stripHDFCHeaders_starts_at_header _ 2 _ (by decide) (by decide)
    (by decide) (by decide)

/-! ### Claims C3 and C4: the upload handler validates before storage -/

theorem removeDuplicatesAux_subset (ident : α → String) :
    ∀ (l : List α) (seen : List String) (x : α),
      x ∈ removeDuplicatesAux ident seen l → x ∈ l := by
  intro l
  induction l with
  | nil => intro seen x hx; simp [removeDuplicatesAux] at hx
  | cons t ts ih =>
    intro seen x hx
    rw [removeDuplicatesAux] at hx
    split at hx
    · exact List.mem_cons_of_mem t (ih seen x hx)
    · rcases List.mem_cons.mp hx with hx | hx
      · exact hx ▸ List.mem_cons_self t ts
      · exact List.mem_cons_of_mem t (ih _ x hx)

theorem transformRow_valid (mapping : List (String × Option String))
    (row : UploadRow) (tr : TransactionInsert)
    (h : transformRow mapping row = some tr) :
    (∃ d, tr.date = some d ∧ d ≠ "") ∧
    (∃ n, tr.narration = some n ∧ n ≠ "") := by
  unfold transformRow at h
  split at h
  · exact absurd h (by simp)
  · rename_i hvalid
    rw [Option.some.injEq] at h
    subst h
    simp only [Bool.or_eq_true, not_or, Bool.not_eq_true] at hvalid
    constructor
    · rcases hd : (withDefaults (applyMapping mapping row)).date with _ | d
      · have := hvalid.1
        rw [hd] at this
        simp [jsFalsyOptStr] at this
      · refine ⟨d, rfl, ?_⟩
        have := hvalid.1
        rw [hd] at this
        simp only [jsFalsyOptStr, decide_eq_false_iff_not] at this
        exact this
    · rcases hn : (withDefaults (applyMapping mapping row)).narration with _ | n
      · have := hvalid.2
        rw [hn] at this
        simp [jsFalsyOptStr] at this
      · refine ⟨n, rfl, ?_⟩
        have := hvalid.2
        rw [hn] at this
        simp only [jsFalsyOptStr, decide_eq_false_iff_not] at this
        exact this

/-- Claim C3: whenever the handler reaches storage, the batch it hands over
is exactly the deduplication of the per-row transformation in which every
row lacking a normalized date or a non-empty trimmed narration has been
dropped, and every transaction in that batch carries a non-empty date and a
non-empty narration. -/
theorem handleUpload_storage_invariant (sha : String → String)
    (nts : ℚ → String) (rows : List UploadRow)
    (mapping : List (String × Option String)) (txns : List TransactionInsert)
    (h : handleUpload sha nts rows mapping = .toStorage txns) :
    txns = removeDuplicatesBy
        (fun tr => getTransactionIdentifier sha nts (insertToInput tr))
        (rows.filterMap (transformRow mapping)) ∧
    ∀ tr ∈ txns,
      (∃ d, tr.date = some d ∧ d ≠ "") ∧
      (∃ n, tr.narration = some n ∧ n ≠ "") := by
  unfold handleUpload at h
  split at h
  · exact absurd h (by simp)
  · split at h
    · exact absurd h (by simp)
    · rw [UploadOutcome.toStorage.injEq] at h
      subst h
      refine ⟨rfl, ?_⟩
      intro tr htr
      have hmem : tr ∈ rows.filterMap (transformRow mapping) :=
        removeDuplicatesAux_subset _ _ [] tr htr
      obtain ⟨row, _, hrow⟩ := List.mem_filterMap.mp hmem
      exact transformRow_valid mapping row tr hrow

def witnessMapping : List (String × Option String) :=
  [("date", some "date"), ("narration", some "narration")]

def witnessRowGood : UploadRow := [("date", "05-11-2024"), ("narration", "  Test  ")]

def witnessRowBad : UploadRow := [("date", "garbage"), ("narration", "x")]

def witnessInsert : TransactionInsert :=
  { date := some "2024-11-05", narration := some "Test",
    withdrawal_amt := some 0, deposit_amt := some 0,
    tags := some [], category := some "Uncategorized" }

theorem handleUpload_storage_invariant_witness :
    (∃ d, witnessInsert.date = some d ∧ d ≠ "") ∧
    (∃ n, witnessInsert.narration = some n ∧ n ≠ "") :=
  (handleUpload_storage_invariant (fun _ => "H") (fun _ => "N")
    [witnessRowGood, witnessRowBad] witnessMapping [witnessInsert]
    (by decide)).2 witnessInsert (List.mem_cons_self _ _)

/-- Claim C4: when the mapping (ignoring `skip` and `null` entries) misses
either required column, the handler answers 400 with the mapping error and
hands nothing to storage. -/
theorem handleUpload_blocks_missing_mapping (sha : String → String)
    (nts : ℚ → String) (rows : List UploadRow)
    (mapping : List (String × Option String))
    (h : (mappedDbColumns mapping).contains "date" = false ∨
      (mappedDbColumns mapping).contains "narration" = false) :
    handleUpload sha nts rows mapping =
      .reject 400 ("Date and Narration columns are required. Please map at least " ++
        "one CSV column to 'date' and one to 'narration'.") := by
  have hc : ((mappedDbColumns mapping).contains "date" &&
      (mappedDbColumns mapping).contains "narration") = false := by
    rcases h with h | h
    · have hmem : "date" ∉ mappedDbColumns mapping := by simpa using h
      simp [hmem]
    · have hmem : "narration" ∉ mappedDbColumns mapping := by simpa using h
      simp [hmem]
  unfold handleUpload
  rw [hc]
  simp

theorem handleUpload_blocks_missing_mapping_witness :
    handleUpload (fun _ => "H") (fun _ => "N") [witnessRowGood]
        [("a", some "narration"), ("b", some "skip"), ("c", none)] =
      .reject 400 ("Date and Narration columns are required. Please map at least " ++
        "one CSV column to 'date' and one to 'narration'.") :=
  handleUpload_blocks_missing_mapping (fun _ => "H") (fun _ => "N")
    [witnessRowGood] [("a", some "narration"), ("b", some "skip"), ("c", none)]
    (Or.inl (by decide))

/-! ### Claim C6: narration grouping partitions the input (distinct ids) -/

theorem collectSimilar_fst (θ : ℚ) (norm : String) :
    ∀ (l : List Transaction) (processed : List String),
      (l.map Transaction.id).Nodup →
      (collectSimilar θ norm l processed).1 =
        l.filter (fun u => decide (u.id ∉ processed) &&
          decide (stringSimilarity norm (normalizeNarration u.narration) ≤ θ)) := by
  intro l
  induction l with
  | nil => intro processed _; rfl
  | cons u us ih =>
    intro processed hN
    rw [List.map_cons, List.nodup_cons] at hN
    obtain ⟨hu, hus⟩ := hN
    by_cases hmem : u.id ∈ processed
    · simp only [collectSimilar, if_pos hmem]
      rw [ih processed hus, List.filter_cons_of_neg (by simp [hmem])]
    · by_cases hsim : stringSimilarity norm (normalizeNarration u.narration) ≤ θ
      · simp only [collectSimilar, if_neg hmem, if_pos hsim]
        rw [ih (u.id :: processed) hus,
          List.filter_cons_of_pos (by simp [hmem, hsim])]
        congr 1
        refine List.filter_congr ?_
        intro v hv
        have hvne : v.id ≠ u.id := by
          intro he
          exact hu (he ▸ List.mem_map_of_mem Transaction.id hv)
        simp [List.mem_cons, hvne]
      · simp only [collectSimilar, if_neg hmem, if_neg hsim]
        rw [ih processed hus, List.filter_cons_of_neg (by simp [hsim])]

theorem collectSimilar_snd_mem (θ : ℚ) (norm : String) :
    ∀ (l : List Transaction) (processed : List String) (i : String),
      i ∈ (collectSimilar θ norm l processed).2 ↔
        i ∈ (collectSimilar θ norm l processed).1.map Transaction.id ∨
          i ∈ processed := by
  intro l
  induction l with
  | nil => intro processed i; simp [collectSimilar]
  | cons u us ih =>
    intro processed i
    by_cases hmem : u.id ∈ processed
    · simp only [collectSimilar, if_pos hmem]
      exact ih processed i
    · by_cases hsim : stringSimilarity norm (normalizeNarration u.narration) ≤ θ
      · simp only [collectSimilar, if_neg hmem, if_pos hsim]
        rw [ih (u.id :: processed) i]
        simp only [List.map_cons, List.mem_cons]
        tauto
      · simp only [collectSimilar, if_neg hmem, if_neg hsim]
        exact ih processed i

theorem filter_partition_perm (p s : α → Bool) (l : List α) :
    (l.filter (fun a => p a && s a) ++
      l.filter (fun a => p a && !(s a))).Perm (l.filter p) := by
  rw [← filter_and p s l, ← filter_and p (fun a => !(s a)) l]
  exact List.filter_append_perm s (l.filter p)

theorem buildGroups_flatten_perm (all : List Transaction) (θ : ℚ)
    (hAll : (all.map Transaction.id).Nodup) :
    ∀ (rest : List Transaction) (processed : List String),
      (∀ x ∈ rest, x ∈ all) →
      (∀ x ∈ all, x ∉ rest → x.id ∈ processed) →
      ((buildGroups all θ rest processed).flatten).Perm
        (all.filter (fun x => decide (x.id ∉ processed))) := by
  intro rest
  induction rest with
  | nil =>
    intro processed _ hdone
    have hnil : all.filter (fun x => decide (x.id ∉ processed)) = [] := by
      rw [List.filter_eq_nil_iff]
      intro a ha
      simp [hdone a ha (List.not_mem_nil a)]
    rw [hnil]
    simp [buildGroups]
  | cons t ts ih =>
    intro processed hsub hdone
    by_cases hmem : t.id ∈ processed
    · simp only [buildGroups, if_pos hmem]
      refine ih processed (fun x hx => hsub x (List.mem_cons_of_mem t hx)) ?_
      intro x hxall hxts
      by_cases hxt : x = t
      · exact hxt ▸ hmem
      · refine hdone x hxall (fun hmem2 => ?_)
        rcases List.mem_cons.mp hmem2 with h | h
        · exact hxt h
        · exact hxts h
    · simp only [buildGroups, if_neg hmem]
      set norm := normalizeNarration t.narration with hnorm
      set M := (collectSimilar θ norm all (t.id :: processed)).1 with hM
      set P2 := (collectSimilar θ norm all (t.id :: processed)).2 with hP2
      rw [List.flatten_cons, List.cons_append]
      have hinj : ∀ x ∈ all, ∀ y ∈ all, Transaction.id x = Transaction.id y → x = y :=
        List.inj_on_of_nodup_map hAll
      have htall : t ∈ all := hsub t (List.mem_cons_self t ts)
      have hMeq : M = all.filter (fun u => decide (u.id ∉ t.id :: processed) &&
          decide (stringSimilarity norm (normalizeNarration u.narration) ≤ θ)) := by
        rw [hM]
        exact collectSimilar_fst θ norm all (t.id :: processed) hAll
      have hP2mem : ∀ i, i ∈ P2 ↔ i ∈ M.map Transaction.id ∨ i ∈ t.id :: processed := by
        intro i
        rw [hP2, hM]
        exact collectSimilar_snd_mem θ norm all (t.id :: processed) i
      have hIH : ((buildGroups all θ ts P2).flatten).Perm
          (all.filter (fun x => decide (x.id ∉ P2))) := by
        refine ih P2 (fun x hx => hsub x (List.mem_cons_of_mem t hx)) ?_
        intro x hxall hxts
        by_cases hxt : x = t
        · subst hxt
          exact (hP2mem x.id).mpr (Or.inr (List.mem_cons_self _ _))
        · have hxrest : x ∉ t :: ts := by
            intro hmem2
            rcases List.mem_cons.mp hmem2 with h | h
            · exact hxt h
            · exact hxts h
          exact (hP2mem x.id).mpr
            (Or.inr (List.mem_cons_of_mem _ (hdone x hxall hxrest)))
      have hfilterP2 : all.filter (fun x => decide (x.id ∉ P2)) =
          all.filter (fun x =>
            (decide (x.id ∉ processed) && decide (x.id ≠ t.id)) &&
            !(decide (stringSimilarity norm (normalizeNarration x.narration) ≤ θ))) := by
        refine List.filter_congr ?_
        intro x hxall
        by_cases h1 : x.id ∈ processed
        · have hx2 : x.id ∈ P2 :=
            (hP2mem x.id).mpr (Or.inr (List.mem_cons_of_mem _ h1))
          simp [hx2, h1]
        · by_cases h2 : x.id = t.id
          · have hx2 : x.id ∈ P2 := by
              refine (hP2mem x.id).mpr (Or.inr ?_)
              rw [h2]
              exact List.mem_cons_self _ _
            have hx2b : t.id ∈ P2 := h2 ▸ hx2
            simp [hx2, hx2b, h2]
          · by_cases h3 : stringSimilarity norm (normalizeNarration x.narration) ≤ θ
            · have hxM : x ∈ M := by
                rw [hMeq]
                refine List.mem_filter.mpr ⟨hxall, ?_⟩
                simp [List.mem_cons, h1, h2, h3]
              have hx2 : x.id ∈ P2 :=
                (hP2mem x.id).mpr (Or.inl (List.mem_map_of_mem _ hxM))
              simp [hx2, h3]
            · have hxid : x.id ∉ P2 := by
                rw [hP2mem]
                rintro (hin | hin)
                · obtain ⟨m, hmM, hmid⟩ := List.mem_map.mp hin
                  have hmall : m ∈ all := by
                    rw [hMeq] at hmM
                    exact (List.mem_filter.mp hmM).1
                  have hmx : m = x := hinj m hmall x hxall hmid
                  subst hmx
                  rw [hMeq] at hmM
                  have hfact := (List.mem_filter.mp hmM).2
                  simp only [Bool.and_eq_true, decide_eq_true_eq] at hfact
                  exact h3 hfact.2
                · rcases List.mem_cons.mp hin with h | h
                  · exact h2 h
                  · exact h1 h
              simp [hxid, h1, h2, h3]
      have hMeq2 : M = all.filter (fun x =>
          (decide (x.id ∉ processed) && decide (x.id ≠ t.id)) &&
          decide (stringSimilarity norm (normalizeNarration x.narration) ≤ θ)) := by
        rw [hMeq]
        refine List.filter_congr ?_
        intro x _
        by_cases h1 : x.id ∈ processed <;> by_cases h2 : x.id = t.id <;>
          simp [List.mem_cons, h1, h2]
      have hpart := filter_partition_perm
        (fun x => decide (x.id ∉ processed) && decide (x.id ≠ t.id))
        (fun x => decide (stringSimilarity norm (normalizeNarration x.narration) ≤ θ)) all
      have hMF : (M ++ (buildGroups all θ ts P2).flatten).Perm
          (all.filter (fun x => decide (x.id ∉ processed) && decide (x.id ≠ t.id))) := by
        refine List.Perm.trans ?_ hpart
        rw [hMeq2]
        refine List.Perm.append_left _ ?_
        rw [← hfilterP2]
        exact hIH
      have hstep : (t :: all.filter
          (fun x => decide (x.id ∉ processed) && decide (x.id ≠ t.id))).Perm
          (all.filter (fun x => decide (x.id ∉ processed))) := by
        have htf : t ∈ all.filter (fun x => decide (x.id ∉ processed)) :=
          List.mem_filter.mpr ⟨htall, by simp [hmem]⟩
        have hndAll : all.Nodup := hAll.of_map
        have hnd : (all.filter (fun x => decide (x.id ∉ processed))).Nodup :=
          hndAll.filter _
        have hperm := List.perm_cons_erase htf
        rw [hnd.erase_eq_filter t, filter_and] at hperm
        have hcongr : all.filter
            (fun x => decide (x.id ∉ processed) && (x != t)) =
            all.filter (fun x => decide (x.id ∉ processed) && decide (x.id ≠ t.id)) := by
          refine List.filter_congr ?_
          intro x hxall
          by_cases hxt : x = t
          · subst hxt; simp
          · have hne : x.id ≠ t.id := fun he => hxt (hinj x hxall t htall he)
            simp [hxt, hne]
        rw [hcongr] at hperm
        exact hperm.symm
      exact (hMF.cons t).trans hstep

theorem buildGroups_mem_ne_nil (all : List Transaction) (θ : ℚ) :
    ∀ (rest : List Transaction) (processed : List String)
      (g : List Transaction), g ∈ buildGroups all θ rest processed → g ≠ [] := by
  intro rest
  induction rest with
  | nil => intro processed g hg; simp [buildGroups] at hg
  | cons t ts ih =>
    intro processed g hg
    by_cases hmem : t.id ∈ processed
    · simp only [buildGroups, if_pos hmem] at hg
      exact ih _ g hg
    · simp only [buildGroups, if_neg hmem] at hg
      rcases List.mem_cons.mp hg with h | h
      · subst h; simp
      · exact ih _ g h

theorem membersOf_displayOfGroup (g : List Transaction) (h : g ≠ []) :
    membersOf (displayOfGroup g) = g := by
  match g with
  | [] => exact absurd rfl h
  | [t] => rfl
  | a :: b :: rest => rfl

theorem flatMap_membersOf_map_displayOfGroup :
    ∀ gs : List (List Transaction), (∀ g ∈ gs, g ≠ []) →
      (gs.map displayOfGroup).flatMap membersOf = gs.flatten := by
  intro gs
  induction gs with
  | nil => intro _; rfl
  | cons g rest ih =>
    intro h
    rw [List.map_cons, List.flatMap_cons, List.flatten_cons,
      ih (fun x hx => h x (List.mem_cons_of_mem g hx)),
      membersOf_displayOfGroup g (h g (List.mem_cons_self g rest))]

theorem groupByNarration_flatMap_perm (getTime : String → Int) (θ : ℚ)
    (txns : List Transaction) (hN : (txns.map Transaction.id).Nodup) :
    ((groupByNarration getTime txns θ).flatMap membersOf).Perm txns := by
  unfold groupByNarration
  have hsort := jsSortBy_perm
    (fun a b => dateDescLe getTime (displayDate a) (displayDate b))
    ((buildGroups txns θ txns []).map displayOfGroup)
  refine (hsort.flatMap_right membersOf).trans ?_
  rw [flatMap_membersOf_map_displayOfGroup _
    (fun g hg => buildGroups_mem_ne_nil txns θ txns [] g hg)]
  have hfix : txns.filter (fun x => decide (x.id ∉ ([] : List String))) = txns := by
    simp
  have hmain := buildGroups_flatten_perm txns θ hN txns []
    (fun x hx => hx) (fun x hx hnx => absurd hx hnx)
  rw [hfix] at hmain
  exact hmain

/-- Claim C6, amended: for inputs whose transaction ids are pairwise
distinct, every input transaction appears in exactly one output element of
narration grouping — the concatenation of the members of all output rows is
a permutation of the input. -/
theorem groupTransactions_narration_partitions (getTime : String → Int)
    (txns : List Transaction) (hN : (txns.map Transaction.id).Nodup) :
    ((groupTransactions getTime txns .modeNarration).flatMap membersOf).Perm
      txns := by
  show ((groupByNarration getTime txns (3 / 10)).flatMap membersOf).Perm txns
  exact groupByNarration_flatMap_perm getTime (3 / 10) txns hN

def narrationWitnessTxns : List Transaction :=
  [{ id := "1", date := "2024-01-01", narration := "UBER TRIP 123",
      withdrawal_amt := 250, deposit_amt := 0 },
   { id := "2", date := "2024-01-02", narration := "UBER TRIP 456",
      withdrawal_amt := 300, deposit_amt := 0 },
   { id := "3", date := "2024-01-03", narration := "SWIGGY ORDER",
      withdrawal_amt := 150, deposit_amt := 0 }]

theorem groupTransactions_narration_partitions_witness :
    ((groupTransactions (fun _ => 0) narrationWitnessTxns .modeNarration).flatMap
      membersOf).Perm narrationWitnessTxns :=
  groupTransactions_narration_partitions (fun _ => 0) narrationWitnessTxns
    (by decide)

def sameIdTxnA : Transaction :=
  { id := "x", date := "2024-01-01", narration := "RENT",
    withdrawal_amt := 0, deposit_amt := 0 }

def sameIdTxnB : Transaction :=
  { id := "x", date := "2024-01-02", narration := "GROCERIES",
    withdrawal_amt := 0, deposit_amt := 0 }

/-- Claim C6 as stated is false on the code: with two distinct transactions
sharing the id `"x"`, narration grouping drops the second one entirely (the
`processed` set is keyed by id), so the members of the output are not a
permutation of the input. -/
theorem groupTransactions_narration_omits_duplicate_id :
    sameIdTxnB ∈ [sameIdTxnA, sameIdTxnB] ∧
    ¬ (((groupTransactions (fun _ => 0) [sameIdTxnA, sameIdTxnB]
        .modeNarration).flatMap membersOf).Perm [sameIdTxnA, sameIdTxnB]) := by
  refine ⟨by simp, ?_⟩
  intro h
  have hlen := h.length_eq
  have heval : ((groupTransactions (fun _ => 0) [sameIdTxnA, sameIdTxnB]
      .modeNarration).flatMap membersOf) = [sameIdTxnA] := by decide
  rw [heval] at hlen
  simp at hlen

end Tracker
